import Mathlib

/-!
Shallow embedding of the simulation core of the `telium` text-adventure
(`main.py`, `utils.py`): space-station modules, entities (player, Telium,
worker aliens), health and energy clamping, module locking, and the
player-movement observer loop.  Python dictionaries are modelled as
association lists, `random.choice` / `random.randint` as explicit oracle
arguments, and the blocking `int_input` prompt as a list of pending
integer inputs.
-/

namespace TeliumGame

/-- Association-list lookup: first entry with the given key (models Python
dict access; dict keys are unique, which well-formedness records). -/
def alookup {α β : Type} [DecidableEq α] : List (α × β) → α → Option β
  | [], _ => none
  | p :: l, k => if p.1 = k then some p.2 else alookup l k

/-- Association-list update: apply `f` to every entry with the given key
(models in-place mutation of a Python dict value). -/
def aupdate {α β : Type} [DecidableEq α] (l : List (α × β)) (k : α) (f : β → β) :
    List (α × β) :=
  l.map (fun p => if p.1 = k then (p.1, f p.2) else p)

abbrev ModuleId := String
abbrev Direction := String
abbrev EntityId := Nat

/-- The gameplay constant `LOCK_MODULE_ENERGY` from `main.py`. -/
def LOCK_MODULE_ENERGY : Int := 20

inductive EntityKind : Type
  | player
  | telium
  | workerAlien
deriving DecidableEq

/-- The `Hurtable` mix-in state: `alive` flag and `_health`. -/
structure Hurtable : Type where
  alive : Bool
  health : Int
deriving DecidableEq

/-- `Hurtable.hurt`: decrement health by `attack`, clamping at zero, then
set `alive` to `false` when the resulting health is zero. -/
def Hurtable.hurt (h : Hurtable) (attack : Int) : Hurtable :=
  let newHealth : Int := if h.health - attack > 0 then h.health - attack else 0
  { alive := if newHealth = 0 then false else h.alive, health := newHealth }

/-- A space-station module (class `Module`). -/
structure Module : Type where
  title : String
  description : String
  doors : List (Direction × ModuleId)
  visited_by_player : Bool
  telium_visited_recently : Bool
  entities : List EntityId
deriving DecidableEq

/-- One entity record.  The Python classes mix positional state
(`Entity`), health (`Hurtable`) and kind-specific fields; the embedding
flattens them into one record tagged with the entity kind (fields not
belonging to a kind are simply never read for it). -/
structure Entity : Type where
  kind : EntityKind
  module : ModuleId
  previous_module : Option ModuleId
  alive : Bool
  health : Int
  flamethrower_fuel : Int
  locked_module : Option ModuleId
  attack : Int
deriving DecidableEq

/-- The global mutable state: `station.modules`, `station._energy`, the
entity registry and the distinguished player id. -/
structure GameState : Type where
  modules : List (ModuleId × Module)
  energy : Int
  entities : List (EntityId × Entity)
  playerId : EntityId
deriving DecidableEq

def getModule (s : GameState) (mid : ModuleId) : Option Module :=
  alookup s.modules mid

def getEntity (s : GameState) (eid : EntityId) : Option Entity :=
  alookup s.entities eid

def getPlayer (s : GameState) : Option Entity :=
  getEntity s s.playerId

def modKeys (s : GameState) : List ModuleId :=
  s.modules.map Prod.fst

def updModule (s : GameState) (mid : ModuleId) (f : Module → Module) : GameState :=
  { s with modules := aupdate s.modules mid f }

def updEntity (s : GameState) (eid : EntityId) (f : Entity → Entity) : GameState :=
  { s with entities := aupdate s.entities eid f }

/-- `Entity._set_module`: remove the entity from its old module's presence
list, record the old module as previous, update the current pointer, and
append to the new module's presence list. -/
def setEntityModule (s : GameState) (eid : EntityId) (dest : ModuleId) : GameState :=
  match getEntity s eid with
  | none => s
  | some e =>
    let s1 := updModule s e.module (fun m => { m with entities := m.entities.erase eid })
    let s2 := updEntity s1 eid
      (fun e2 => { e2 with previous_module := some e.module, module := dest })
    updModule s2 dest (fun m => { m with entities := m.entities ++ [eid] })

/-- Apply `Hurtable.hurt` to the named entity's health/alive fields. -/
def hurtEntity (s : GameState) (eid : EntityId) (attack : Int) : GameState :=
  updEntity s eid (fun e =>
    let hb := Hurtable.hurt { alive := e.alive, health := e.health } attack
    { e with alive := hb.alive, health := hb.health })

def playerAlive (s : GameState) : Bool :=
  match getPlayer s with
  | some p => p.alive
  | none => false

/-- `SpaceStation.deplete_energy` on the energy value: subtract, clamping
at zero. -/
def deplete_energy (energy amount : Int) : Int :=
  if energy - amount > 0 then energy - amount else 0

inductive LockResult : Type
  | noSuchModule
  | alreadyLocked
  | insufficientEnergy
  | success
deriving DecidableEq

/-- `Player.lock_module`: reject an unknown module id, report when the
target is already the locked module, otherwise require at least
`LOCK_MODULE_ENERGY` station energy, set the locked module and deplete the
pool. -/
def lock_module (s : GameState) (target : ModuleId) : GameState × LockResult :=
  match getModule s target with
  | none => (s, LockResult.noSuchModule)
  | some _ =>
    match getPlayer s with
    | none => (s, LockResult.noSuchModule)
    | some p =>
      if some target = p.locked_module then (s, LockResult.alreadyLocked)
      else if LOCK_MODULE_ENERGY ≤ s.energy then
        let s1 := updEntity s s.playerId (fun e => { e with locked_module := some target })
        ({ s1 with energy := deplete_energy s1.energy LOCK_MODULE_ENERGY },
          LockResult.success)
      else (s, LockResult.insufficientEnergy)

/-- Does a `lock_module` call emit the lights-out narration?  The narration
is printed by `deplete_energy` exactly when the post-depletion energy is
zero, and `deplete_energy` is invoked only on the successful branch. -/
def lockEmits (s : GameState) (target : ModuleId) : Bool :=
  decide ((lock_module s target).2 = LockResult.success ∧
    (lock_module s target).1.energy = 0)

/-- Number of lights-out narrations over a sequence of lock commands (the
only commands that touch the energy pool). -/
def lockTrace : GameState → List ModuleId → Nat
  | _, [] => 0
  | s, t :: ts =>
    (if lockEmits s t then 1 else 0) + lockTrace (lock_module s t).1 ts

/-- Model of `random.choice l`: an arbitrary draw `k` selects element
`k % l.length`, so every element is reachable; `d` is a fallback for the
empty list (on which the source would raise). -/
def pickFrom {α : Type} (l : List α) (d : α) (k : Nat) : α :=
  l.getD (k % l.length) d

/-- Telium flight candidates (`available_escapes`): door-neighbours of the
Telium's current module, excluding the player's previous module, the
player's current module and the player's locked module.  Comparison with
`None` on the Python side is never equal, which `some mid ≠ none` mirrors. -/
def availableEscapes (s : GameState) (tid : EntityId) : List ModuleId :=
  match getEntity s tid, getPlayer s with
  | some t, some p =>
    match getModule s t.module with
    | some m =>
      (m.doors.map Prod.snd).filter (fun mid =>
        decide (some mid ≠ p.previous_module) && decide (mid ≠ p.module) &&
          decide (some mid ≠ p.locked_module))
    | none => []
  | _, _ => []

/-- `Telium.move_to`: relocate and mark the entered module as recently
visited by the Telium. -/
def teliumMoveTo (s : GameState) (tid : EntityId) (dest : ModuleId) : GameState :=
  let s1 := setEntityModule s tid dest
  updModule s1 dest (fun m => { m with telium_visited_recently := true })

/-- The flight loop of `Telium.on_player_entered_module`: `n` is the
`randint(1, 3)` draw, `picks` the successive `choice` draws; stop early
when no candidate exists. -/
def teliumFlee (tid : EntityId) : Nat → List Nat → GameState → GameState
  | 0, _, s => s
  | Nat.succ n, picks, s =>
    match availableEscapes s tid with
    | [] => s
    | m :: ms =>
      teliumFlee tid n picks.tail
        (teliumMoveTo s tid (pickFrom (m :: ms) m (picks.headD 0)))

/-- The combat loop of `WorkerAlien.on_player_entered_module`: `inputs`
are the successive `int_input` values, `pick` the `choice` draw used if
the alien flees.  The loop runs while both the alien and the player are
alive; an over-fuel request changes nothing and reprompts; otherwise the
fuel is deducted and applied as damage, after which the alien dies, flees
(health at most 4, loop ends), or counterattacks. -/
def workerCombat (wid : EntityId) (pick : Nat) : List Int → GameState → GameState
  | [], s => s
  | i :: rest, s =>
    match getEntity s wid, getPlayer s with
    | some w, some p =>
      if w.alive && p.alive then
        if i ≤ p.flamethrower_fuel then
          let s1 := updEntity s s.playerId
            (fun e => { e with flamethrower_fuel := e.flamethrower_fuel - i })
          let s2 := hurtEntity s1 wid i
          match getEntity s2 wid with
          | some w2 =>
            if !w2.alive then workerCombat wid pick rest s2
            else if w2.health ≤ 4 then
              setEntityModule s2 wid
                (pickFrom ((modKeys s2).filter (fun mid => decide (mid ≠ w2.module)))
                  w2.module pick)
            else workerCombat wid pick rest (hurtEntity s2 s.playerId w.attack)
          | none => s2
        else workerCombat wid pick rest s
      else s
    | _, _ => s

/-- The random draws and pending prompt inputs available to one entity's
reaction. -/
structure ROracle : Type where
  teliumSteps : Nat
  teliumPicks : List Nat
  combatInputs : List Int
  fleePick : Nat

/-- Dispatch of `on_player_entered_module` by entity kind: the base
`Entity` reaction is a no-op, the Telium flees, a worker alien fights if
alive. -/
def entityReact (orc : EntityId → ROracle) (eid : EntityId) (s : GameState) : GameState :=
  match getEntity s eid with
  | none => s
  | some e =>
    match e.kind with
    | EntityKind.player => s
    | EntityKind.telium => teliumFlee eid (orc eid).teliumSteps (orc eid).teliumPicks s
    | EntityKind.workerAlien =>
      if e.alive then workerCombat eid (orc eid).fleePick (orc eid).combatInputs s else s

/-- The observer loop of `Player.move_to`: react each entity of the
snapshot in order, breaking as soon as the player is no longer alive;
also returns the list of entities actually notified. -/
def runObs (react : EntityId → GameState → GameState) :
    List EntityId → GameState → GameState × List EntityId
  | [], s => (s, [])
  | e :: rest, s =>
    let s1 := react e s
    if playerAlive s1 then
      let r := runObs react rest s1
      (r.1, e :: r.2)
    else (s1, [e])

/-- Sequential application of reactions (left fold), used to characterise
the observer loop. -/
def applyList (react : EntityId → GameState → GameState)
    (l : List EntityId) (s : GameState) : GameState :=
  l.foldl (fun st e => react e st) s

/-- Is `eid` a non-player entity of `s` (the `not isinstance(entity,
Player)` filter)? -/
def nonPlayerEnt (s : GameState) (eid : EntityId) : Bool :=
  match getEntity s eid with
  | some e => decide (e.kind ≠ EntityKind.player)
  | none => false

/-- The state after the relocation-and-mark phase of `Player.move_to`,
before observers run. -/
def movePre (s : GameState) (dest : ModuleId) : GameState :=
  let s1 := setEntityModule s s.playerId dest
  updModule s1 dest (fun m => { m with visited_by_player := true })

/-- The snapshot of non-player entities taken by `Player.move_to` before
notifying (a copy of the destination module's entity list, filtered). -/
def moveSnapshot (s : GameState) (dest : ModuleId) : List EntityId :=
  (match getModule (movePre s dest) dest with
    | some m => m.entities
    | none => []).filter (fun eid => nonPlayerEnt (movePre s dest) eid)

/-- `Player.move_to`: relocate, mark the destination visited, then notify
every non-player entity present, stopping early if the player dies.  Also
returns the notified entities in order. -/
def move_to (orc : EntityId → ROracle) (s : GameState) (dest : ModuleId) :
    GameState × List EntityId :=
  runObs (entityReact orc) (moveSnapshot s dest) (movePre s dest)

/-- Well-formedness of a game state: module and entity keys are unique
(they model Python dict keys and object identities), every entity occurs
exactly once in the presence list of the module it points to and in no
other, every entity's module and every door target resolve, and the
distinguished player id is exactly the entity of player kind. -/
def WF (s : GameState) : Prop :=
  (s.modules.map Prod.fst).Nodup ∧
  (s.entities.map Prod.fst).Nodup ∧
  (∀ p ∈ s.entities, ∀ q ∈ s.modules,
    (q.2).entities.count p.1 = if (p.2).module = q.1 then 1 else 0) ∧
  (∀ p ∈ s.entities, (p.2).module ∈ s.modules.map Prod.fst) ∧
  (∀ q ∈ s.modules, ∀ d ∈ (q.2).doors, d.2 ∈ s.modules.map Prod.fst) ∧
  (∀ p ∈ s.entities, ((p.2).kind = EntityKind.player ↔ p.1 = s.playerId))

/-- The player's observable position: current module and previous module
(used to state that creature reactions never relocate the player). -/
def playerPos (s : GameState) : Option (ModuleId × Option ModuleId) :=
  (getPlayer s).map (fun e => (e.module, e.previous_module))

/-- A small concrete station used to evaluate the definitions: three
modules in a line, the player alone on the bridge, the Telium and one
worker alien in the engine room. -/
def bridgeModule : Module :=
  { title := "Bridge", description := "B", doors := [("south", "engine")],
    visited_by_player := true, telium_visited_recently := false, entities := [0] }

def engineModule : Module :=
  { title := "Engine Room", description := "E",
    doors := [("north", "bridge"), ("east", "cargo")],
    visited_by_player := false, telium_visited_recently := false, entities := [1, 2] }

def cargoModule : Module :=
  { title := "Cargo Bay", description := "C", doors := [("west", "engine")],
    visited_by_player := false, telium_visited_recently := false, entities := [] }

def demoPlayer : Entity :=
  { kind := EntityKind.player, module := "bridge", previous_module := none,
    alive := true, health := 100, flamethrower_fuel := 100,
    locked_module := none, attack := 0 }

def demoTelium : Entity :=
  { kind := EntityKind.telium, module := "engine", previous_module := none,
    alive := true, health := 0, flamethrower_fuel := 0,
    locked_module := none, attack := 0 }

def demoWorker : Entity :=
  { kind := EntityKind.workerAlien, module := "engine", previous_module := none,
    alive := true, health := 10, flamethrower_fuel := 0,
    locked_module := none, attack := 7 }

def demoState : GameState :=
  { modules := [("bridge", bridgeModule), ("engine", engineModule), ("cargo", cargoModule)],
    energy := 100,
    entities := [(0, demoPlayer), (1, demoTelium), (2, demoWorker)],
    playerId := 0 }

/-- The demo station with exactly `LOCK_MODULE_ENERGY` energy left. -/
def demoState20 : GameState :=
  { demoState with energy := 20 }

/-- A trivial oracle: one flight step, first choices, no combat input. -/
def demoOracle : EntityId → ROracle :=
  fun _ => { teliumSteps := 1, teliumPicks := [0], combatInputs := [], fleePick := 0 }

/-- A worker alien re-engaged while wounded: it fled an earlier fight
with health 2 (a fleeing alien survives with health 1 to 4). -/
def demoWorkerWounded : Entity :=
  { kind := EntityKind.workerAlien, module := "engine", previous_module := none,
    alive := true, health := 2, flamethrower_fuel := 0,
    locked_module := none, attack := 7 }

/-- The demo station with the wounded worker alien in the engine room. -/
def demoStateWounded : GameState :=
  { demoState with
    entities := [(0, demoPlayer), (1, demoTelium), (2, demoWorkerWounded)] }

end TeliumGame

namespace TeliumGame

theorem aupdate_cons {α β : Type} [DecidableEq α]
    (p : α × β) (l : List (α × β)) (k : α) (f : β → β) :
    aupdate (p :: l) k f = (if p.1 = k then (p.1, f p.2) else p) :: aupdate l k f := rfl

theorem alookup_aupdate_self {α β : Type} [DecidableEq α]
    (l : List (α × β)) (k : α) (f : β → β) :
    alookup (aupdate l k f) k = (alookup l k).map f := by
  induction l with
  | nil => rfl
  | cons p l ih =>
    rw [aupdate_cons]
    by_cases h : p.1 = k
    · simp [alookup, h]
    · simp only [alookup]
      rw [if_neg, if_neg h, ih]
      intro hc
      rw [if_neg h] at hc
      exact h hc

theorem alookup_aupdate_ne {α β : Type} [DecidableEq α]
    (l : List (α × β)) (k k2 : α) (f : β → β) (h : k2 ≠ k) :
    alookup (aupdate l k f) k2 = alookup l k2 := by
  induction l with
  | nil => rfl
  | cons p l ih =>
    rw [aupdate_cons]
    by_cases hp : p.1 = k
    · have h2 : p.1 ≠ k2 := by
        rw [hp]
        exact fun hh => h hh.symm
      simp only [alookup, hp, if_pos]
      have h3 : ¬ (k = k2) := fun hh => h hh.symm
      rw [if_neg h3, ih, if_neg h3]
    · simp only [alookup, hp, if_neg, not_false_iff]
      by_cases hp2 : p.1 = k2
      · rw [if_pos hp2, if_pos hp2]
      · rw [if_neg hp2, if_neg hp2, ih]

theorem mapfst_aupdate {α β : Type} [DecidableEq α]
    (l : List (α × β)) (k : α) (f : β → β) :
    (aupdate l k f).map Prod.fst = l.map Prod.fst := by
  induction l with
  | nil => rfl
  | cons p l ih =>
    by_cases hp : p.1 = k <;> simp [aupdate, hp] <;>
      simpa [aupdate] using ih

theorem alookup_mem {α β : Type} [DecidableEq α]
    {l : List (α × β)} {k : α} {v : β} (h : alookup l k = some v) : (k, v) ∈ l := by
  induction l with
  | nil => simp [alookup] at h
  | cons p l ih =>
    rcases p with ⟨a, b⟩
    by_cases hp : a = k
    · subst hp
      simp [alookup] at h
      subst h
      exact List.mem_cons_self _ _
    · simp [alookup, hp] at h
      exact List.mem_cons_of_mem _ (ih h)

theorem alookup_isSome_of_mem_fst {α β : Type} [DecidableEq α]
    {l : List (α × β)} {k : α} (h : k ∈ l.map Prod.fst) :
    ∃ v, alookup l k = some v := by
  induction l with
  | nil => simp at h
  | cons p l ih =>
    by_cases hp : p.1 = k
    · exact ⟨p.2, by simp [alookup, hp]⟩
    · simp only [List.map_cons, List.mem_cons] at h
      rcases h with h | h
      · exact absurd h.symm hp
      · simpa [alookup, hp] using ih h

theorem alookup_of_mem_nodup {α β : Type} [DecidableEq α]
    {l : List (α × β)} {k : α} {v : β}
    (hn : (l.map Prod.fst).Nodup) (h : (k, v) ∈ l) : alookup l k = some v := by
  induction l with
  | nil => simp at h
  | cons p l ih =>
    simp only [List.map_cons, List.nodup_cons] at hn
    rcases List.mem_cons.mp h with h | h
    · subst h
      simp [alookup]
    · have hne : p.1 ≠ k := by
        intro he
        exact hn.1 (he ▸ (List.mem_map_of_mem Prod.fst h))
      simp [alookup, hne, ih hn.2 h]

theorem mem_aupdate {α β : Type} [DecidableEq α]
    {l : List (α × β)} {k : α} {f : β → β} {p : α × β} (h : p ∈ aupdate l k f) :
    ∃ v0, (p.1, v0) ∈ l ∧ p.2 = (if p.1 = k then f v0 else v0) := by
  rcases List.mem_map.mp h with ⟨q, hq, he⟩
  rcases q with ⟨a, b⟩
  by_cases hk : a = k
  · simp only [hk, if_pos] at he
    subst he
    subst hk
    exact ⟨b, hq, by simp⟩
  · simp only [hk, if_neg, not_false_iff] at he
    subst he
    exact ⟨b, hq, by simp [hk]⟩

theorem getEntity_updEntity_self (s : GameState) (eid : EntityId) (f : Entity → Entity) :
    getEntity (updEntity s eid f) eid = (getEntity s eid).map f :=
  alookup_aupdate_self _ _ _

theorem getEntity_updEntity_ne (s : GameState) (eid eid2 : EntityId)
    (f : Entity → Entity) (h : eid2 ≠ eid) :
    getEntity (updEntity s eid f) eid2 = getEntity s eid2 :=
  alookup_aupdate_ne _ _ _ _ h

theorem getEntity_updModule (s : GameState) (mid : ModuleId) (f : Module → Module)
    (eid : EntityId) : getEntity (updModule s mid f) eid = getEntity s eid := rfl

theorem getModule_updEntity (s : GameState) (eid : EntityId) (f : Entity → Entity)
    (mid : ModuleId) : getModule (updEntity s eid f) mid = getModule s mid := rfl

theorem getModule_updModule_self (s : GameState) (mid : ModuleId) (f : Module → Module) :
    getModule (updModule s mid f) mid = (getModule s mid).map f :=
  alookup_aupdate_self _ _ _

theorem getModule_updModule_ne (s : GameState) (mid mid2 : ModuleId)
    (f : Module → Module) (h : mid2 ≠ mid) :
    getModule (updModule s mid f) mid2 = getModule s mid2 :=
  alookup_aupdate_ne _ _ _ _ h

theorem modKeys_updModule (s : GameState) (mid : ModuleId) (f : Module → Module) :
    modKeys (updModule s mid f) = modKeys s :=
  mapfst_aupdate _ _ _

theorem modKeys_updEntity (s : GameState) (eid : EntityId) (f : Entity → Entity) :
    modKeys (updEntity s eid f) = modKeys s := rfl

theorem energy_updModule (s : GameState) (mid : ModuleId) (f : Module → Module) :
    (updModule s mid f).energy = s.energy := rfl

theorem energy_updEntity (s : GameState) (eid : EntityId) (f : Entity → Entity) :
    (updEntity s eid f).energy = s.energy := rfl

theorem playerId_updModule (s : GameState) (mid : ModuleId) (f : Module → Module) :
    (updModule s mid f).playerId = s.playerId := rfl

theorem playerId_updEntity (s : GameState) (eid : EntityId) (f : Entity → Entity) :
    (updEntity s eid f).playerId = s.playerId := rfl

theorem getPlayer_updEntity_player (s : GameState) (f : Entity → Entity) :
    getPlayer (updEntity s s.playerId f) = (getPlayer s).map f :=
  getEntity_updEntity_self s s.playerId f

theorem getPlayer_updEntity_ne (s : GameState) (eid : EntityId) (f : Entity → Entity)
    (h : s.playerId ≠ eid) :
    getPlayer (updEntity s eid f) = getPlayer s :=
  getEntity_updEntity_ne s eid s.playerId f h

theorem getPlayer_updModule (s : GameState) (mid : ModuleId) (f : Module → Module) :
    getPlayer (updModule s mid f) = getPlayer s := rfl

/-- Claim C1: for every entity with the health capability, `hurt` with a
non-negative amount `a` from health `h` yields health `max 0 (h - a)`; the
alive flag is `true` afterwards exactly when it was `true` and the
resulting health is positive (so it becomes `false` exactly when the
resulting health is zero), damage at zero health leaves health at zero,
and a dead entity stays dead under any further damage. -/
theorem C1_hurt_clamps_and_kills (s : Hurtable) (a : Int) (ha : 0 ≤ a) :
    (s.hurt a).health = max 0 (s.health - a) ∧
    ((s.hurt a).alive = true ↔ (s.alive = true ∧ 0 < s.health - a)) ∧
    (s.health = 0 → (s.hurt a).health = 0) ∧
    (∀ b : Int, s.alive = false → (s.hurt b).alive = false) := by
  refine ⟨?_, ?_, ?_, ?_⟩
  · simp only [Hurtable.hurt]
    split <;> omega
  · simp only [Hurtable.hurt]
    split
    · have : ¬ (s.health - a = 0) := by omega
      simp [this]
      omega
    · simp
      omega
  · intro h0
    simp only [Hurtable.hurt]
    split <;> omega
  · intro b hdead
    simp only [Hurtable.hurt, hdead]
    split <;> simp

/-- Witness for C1 at a concrete input. -/
theorem C1_hurt_clamps_and_kills_witness :
    ((Hurtable.mk true 5).hurt 7).health = max 0 ((5 : Int) - 7) :=
  (C1_hurt_clamps_and_kills (Hurtable.mk true 5) 7 (by decide)).1

/-- Claim C8: `deplete_energy` clamps at zero: the result is
`max 0 (e - a)` (so `e - a` when positive, else exactly `0`), is never
negative, and depleting by at least the current energy gives exactly `0`. -/
theorem C8_deplete_energy_clamps (e a : Int) :
    deplete_energy e a = max 0 (e - a) ∧
    0 ≤ deplete_energy e a ∧
    (e ≤ a → deplete_energy e a = 0) := by
  refine ⟨?_, ?_, ?_⟩ <;> simp only [deplete_energy] <;> split <;> omega

/-- Witness for C8 at a concrete input. -/
theorem C8_deplete_energy_clamps_witness :
    deplete_energy 10 15 = 0 :=
  (C8_deplete_energy_clamps 10 15).2.2 (by decide)

/-- Claim C4: `lock_module` on an already-locked target reports
`alreadyLocked` and changes nothing, regardless of energy; otherwise with
energy below the threshold it reports `insufficientEnergy` and changes
nothing; otherwise it succeeds, sets the locked module to the target and
deducts exactly `LOCK_MODULE_ENERGY` from the pool.  With energy exactly
at the threshold the lock succeeds leaving energy `0`, and any subsequent
lock of a different module reports `insufficientEnergy` without change. -/
theorem C4_lock_module_spec (s : GameState) (target : ModuleId) (p : Entity) (m : Module)
    (hm : getModule s target = some m) (hp : getPlayer s = some p) :
    (some target = p.locked_module →
      lock_module s target = (s, LockResult.alreadyLocked)) ∧
    (some target ≠ p.locked_module → s.energy < LOCK_MODULE_ENERGY →
      lock_module s target = (s, LockResult.insufficientEnergy)) ∧
    (some target ≠ p.locked_module → LOCK_MODULE_ENERGY ≤ s.energy →
      (lock_module s target).2 = LockResult.success ∧
      (lock_module s target).1.energy = s.energy - LOCK_MODULE_ENERGY ∧
      getPlayer (lock_module s target).1 = some { p with locked_module := some target }) ∧
    (some target ≠ p.locked_module → s.energy = LOCK_MODULE_ENERGY →
      (lock_module s target).1.energy = 0 ∧
      ∀ t2, t2 ≠ target →
        lock_module (lock_module s target).1 t2 =
          ((lock_module s target).1, LockResult.insufficientEnergy) ∨
        ((lock_module (lock_module s target).1 t2).2 = LockResult.noSuchModule ∧
          lock_module (lock_module s target).1 t2 =
            ((lock_module s target).1, LockResult.noSuchModule))) := by
  have hset : ∀ f : Entity → Entity,
      getPlayer (updEntity s s.playerId f) = some (f p) := by
    intro f
    rw [getPlayer_updEntity_player, hp]
    rfl
  refine ⟨?_, ?_, ?_, ?_⟩
  · intro hl
    simp only [lock_module, hm, hp, hl, if_pos]
  · intro hl he
    have h2 : ¬ (LOCK_MODULE_ENERGY ≤ s.energy) := by omega
    simp only [lock_module, hm, hp, if_neg hl, if_neg h2]
  · intro hl he
    simp only [lock_module, hm, hp, if_neg hl, if_pos he]
    refine ⟨trivial, ?_, ?_⟩
    · show deplete_energy s.energy LOCK_MODULE_ENERGY = s.energy - LOCK_MODULE_ENERGY
      simp only [deplete_energy, LOCK_MODULE_ENERGY] at *
      split <;> omega
    · exact hset (fun e => { e with locked_module := some target })
  · intro hl he
    simp only [lock_module, hm, hp, if_neg hl, if_pos (le_of_eq he.symm)]
    constructor
    · show deplete_energy s.energy LOCK_MODULE_ENERGY = 0
      simp only [deplete_energy, LOCK_MODULE_ENERGY] at *
      split <;> omega
    · intro t2 ht2
      set s1 : GameState :=
        { updEntity s s.playerId (fun e => { e with locked_module := some target }) with
          energy := deplete_energy
            (updEntity s s.playerId
              (fun e => { e with locked_module := some target })).energy
            LOCK_MODULE_ENERGY } with hs1
      have he1 : s1.energy = 0 := by
        show deplete_energy s.energy LOCK_MODULE_ENERGY = 0
        simp only [deplete_energy, LOCK_MODULE_ENERGY] at *
        split <;> omega
      have hp1 : getPlayer s1 = some { p with locked_module := some target } :=
        hset (fun e => { e with locked_module := some target })
      cases hm2 : getModule s1 t2 with
      | none =>
        right
        constructor <;> simp [lock_module, hm2]
      | some m2 =>
        left
        have hne : ¬ (some t2 = ({ p with locked_module := some target} :
            Entity).locked_module) := by
          simp [ht2]
        have hlt : ¬ (LOCK_MODULE_ENERGY ≤ s1.energy) := by
          rw [he1]
          decide
        simp only [lock_module, hm2, hp1, if_neg hne, if_neg hlt]

/-- Witness for C4: locking the cargo bay with exactly 20 energy leaves
the pool at 0. -/
theorem C4_lock_module_spec_witness :
    (lock_module demoState20 "cargo").1.energy = 0 :=
  ((C4_lock_module_spec demoState20 "cargo" demoPlayer cargoModule (by decide)
    (by decide)).2.2.2 (by decide) (by decide)).1

theorem energy_setEntityModule (s : GameState) (eid : EntityId) (dest : ModuleId) :
    (setEntityModule s eid dest).energy = s.energy := by
  cases hge : getEntity s eid <;> simp [setEntityModule, hge, energy_updModule,
    energy_updEntity]

theorem energy_hurtEntity (s : GameState) (eid : EntityId) (a : Int) :
    (hurtEntity s eid a).energy = s.energy := rfl

theorem energy_teliumMoveTo (s : GameState) (tid : EntityId) (dest : ModuleId) :
    (teliumMoveTo s tid dest).energy = s.energy := by
  simp [teliumMoveTo, energy_updModule, energy_setEntityModule]

theorem energy_teliumFlee (tid : EntityId) (n : Nat) (picks : List Nat) (s : GameState) :
    (teliumFlee tid n picks s).energy = s.energy := by
  induction n generalizing picks s with
  | zero => rfl
  | succ n ih =>
    rw [teliumFlee]
    cases availableEscapes s tid with
    | nil => rfl
    | cons m ms => rw [ih, energy_teliumMoveTo]

theorem energy_workerCombat (wid : EntityId) (pick : Nat) (inputs : List Int)
    (s : GameState) : (workerCombat wid pick inputs s).energy = s.energy := by
  induction inputs generalizing s with
  | nil => rfl
  | cons i rest ih =>
    rw [workerCombat]
    cases hw : getEntity s wid with
    | none => rfl
    | some w =>
      cases hp : getPlayer s with
      | none => rfl
      | some p =>
        by_cases hg : (w.alive && p.alive) = true
        · simp only [hg, if_pos]
          by_cases hf : i ≤ p.flamethrower_fuel
          · simp only [hf, if_pos]
            cases hw2 : getEntity (hurtEntity (updEntity s s.playerId
                (fun e => { e with flamethrower_fuel := e.flamethrower_fuel - i })) wid i)
                wid with
            | none => simp [energy_hurtEntity, energy_updEntity]
            | some w2 =>
              by_cases hd : (!w2.alive) = true
              · simp [hd, ih, energy_hurtEntity, energy_updEntity]
              · simp only [hd, if_neg, Bool.not_eq_true] at *
                by_cases hfl : w2.health ≤ 4
                · simp [hd, hfl, energy_setEntityModule, energy_hurtEntity,
                    energy_updEntity]
                · simp [hd, hfl, ih, energy_hurtEntity, energy_updEntity]
          · simp [hf, ih]
        · simp [hg]

theorem energy_entityReact (orc : EntityId → ROracle) (eid : EntityId) (s : GameState) :
    (entityReact orc eid s).energy = s.energy := by
  cases hge : getEntity s eid with
  | none => simp [entityReact, hge]
  | some e =>
    cases hk : e.kind with
    | player => simp [entityReact, hge, hk]
    | telium => simp [entityReact, hge, hk, energy_teliumFlee]
    | workerAlien =>
      by_cases ha : e.alive = true
      · simp [entityReact, hge, hk, ha, energy_workerCombat]
      · simp [entityReact, hge, hk, ha]

theorem energy_runObs (react : EntityId → GameState → GameState)
    (hre : ∀ e st, (react e st).energy = st.energy) (l : List EntityId) (s : GameState) :
    ((runObs react l s).1).energy = s.energy := by
  induction l generalizing s with
  | nil => rfl
  | cons e rest ih =>
    rw [runObs]
    by_cases ha : playerAlive (react e s) = true
    · simp only [ha, if_pos]
      rw [ih, hre]
    · simp only [ha, if_neg, Bool.not_eq_true]
      simp [Bool.not_eq_true] at ha
      simp [ha, hre]

theorem energy_movePre (s : GameState) (dest : ModuleId) :
    (movePre s dest).energy = s.energy := by
  simp [movePre, energy_updModule, energy_setEntityModule]

theorem lock_unchanged_of_not_success (s : GameState) (t : ModuleId)
    (h : (lock_module s t).2 ≠ LockResult.success) : (lock_module s t).1 = s := by
  rw [lock_module] at *
  cases hm : getModule s t with
  | none => rfl
  | some m =>
    rw [hm] at h
    cases hp : getPlayer s with
    | none => rfl
    | some p =>
      rw [hp] at h
      by_cases hl : some t = p.locked_module
      · simp [hl]
      · by_cases he : LOCK_MODULE_ENERGY ≤ s.energy
        · simp [hl, he] at h
        · simp [hl, he]

theorem lock_success_energy (s : GameState) (t : ModuleId)
    (h : (lock_module s t).2 = LockResult.success) : LOCK_MODULE_ENERGY ≤ s.energy := by
  rw [lock_module] at h
  cases hm : getModule s t with
  | none => rw [hm] at h; exact absurd h (by simp)
  | some m =>
    rw [hm] at h
    cases hp : getPlayer s with
    | none =>
      rw [hp] at h
      simp at h
    | some p =>
      rw [hp] at h
      by_cases hl : some t = p.locked_module
      · simp [hl] at h
      · by_cases he : LOCK_MODULE_ENERGY ≤ s.energy
        · exact he
        · simp [hl, he] at h

theorem lockEmits_post_zero (s : GameState) (t : ModuleId)
    (h : lockEmits s t = true) : (lock_module s t).1.energy = 0 :=
  (of_decide_eq_true h).2

theorem lockEmits_false_of_zero (s : GameState) (t : ModuleId)
    (h : s.energy = 0) : lockEmits s t = false := by
  apply decide_eq_false
  intro hc
  have hle := lock_success_energy s t hc.1
  rw [h] at hle
  exact absurd hle (by decide)

theorem lock_state_of_zero (s : GameState) (t : ModuleId)
    (h : s.energy = 0) : (lock_module s t).1 = s := by
  apply lock_unchanged_of_not_success
  intro hc
  have hle := lock_success_energy s t hc
  rw [h] at hle
  exact absurd hle (by decide)

theorem lockTrace_of_zero (ts : List ModuleId) (s : GameState)
    (h : s.energy = 0) : lockTrace s ts = 0 := by
  induction ts generalizing s with
  | nil => rfl
  | cons t ts ih =>
    rw [lockTrace, lockEmits_false_of_zero s t h, lock_state_of_zero s t h]
    simpa using ih s h

theorem lockTrace_le_one (ts : List ModuleId) (s : GameState) : lockTrace s ts ≤ 1 := by
  induction ts generalizing s with
  | nil => exact Nat.zero_le 1
  | cons t ts ih =>
    rw [lockTrace]
    by_cases he : lockEmits s t = true
    · rw [lockTrace_of_zero ts _ (lockEmits_post_zero s t he)]
      simp [he]
    · simp only [Bool.not_eq_true] at he
      simpa [he] using ih (lock_module s t).1

theorem playerId_setEntityModule (s : GameState) (eid : EntityId) (dest : ModuleId) :
    (setEntityModule s eid dest).playerId = s.playerId := by
  cases hge : getEntity s eid with
  | none => rw [setEntityModule, hge]
  | some e =>
    rw [setEntityModule, hge]
    rfl

theorem getEntity_setEntityModule_self (s : GameState) (eid : EntityId)
    (dest : ModuleId) (e : Entity) (he : getEntity s eid = some e) :
    getEntity (setEntityModule s eid dest) eid =
      some { e with previous_module := some e.module, module := dest } := by
  rw [setEntityModule, he]
  show getEntity (updModule _ _ _) eid = _
  rw [getEntity_updModule, getEntity_updEntity_self, getEntity_updModule, he]
  rfl

theorem getEntity_setEntityModule_ne (s : GameState) (eid eid2 : EntityId)
    (dest : ModuleId) (h : eid2 ≠ eid) :
    getEntity (setEntityModule s eid dest) eid2 = getEntity s eid2 := by
  rw [setEntityModule]
  cases he : getEntity s eid with
  | none => rfl
  | some e =>
    show getEntity (updModule _ _ _) eid2 = _
    rw [getEntity_updModule, getEntity_updEntity_ne _ _ _ _ h, getEntity_updModule]

theorem pickFrom_mem {α : Type} (l : List α) (d : α) (k : Nat) (h : l ≠ []) :
    pickFrom l d k ∈ l := by
  have hlen : 0 < l.length := List.length_pos.mpr h
  have hlt : k % l.length < l.length := Nat.mod_lt k hlen
  rw [pickFrom, List.getD_eq_getElem l d hlt]
  exact List.getElem_mem hlt

/-- Claim C3: an over-fuel request during worker-alien combat mutates no
state and reprompts: the whole loop run on `i :: rest` equals the run on
`rest` from the unchanged state, so player fuel and health, creature
health, alive flags and all positions are untouched by that iteration. -/
theorem C3_overfuel_request_no_change (wid : EntityId) (pick : Nat) (i : Int)
    (rest : List Int) (s : GameState) (w p : Entity)
    (hw : getEntity s wid = some w) (hp : getPlayer s = some p)
    (hwa : w.alive = true) (hpa : p.alive = true)
    (hf : p.flamethrower_fuel < i) :
    workerCombat wid pick (i :: rest) s = workerCombat wid pick rest s := by
  have hg : (w.alive && p.alive) = true := by rw [hwa, hpa]; rfl
  have hnf : ¬ (i ≤ p.flamethrower_fuel) := not_le.mpr hf
  simp only [workerCombat, hw, hp, hg, if_pos, hnf, if_neg, not_false_iff, if_true]

/-- Witness for C3: requesting 101 fuel with 100 available changes
nothing. -/
theorem C3_overfuel_request_no_change_witness :
    workerCombat 2 0 [101] demoState = workerCombat 2 0 [] demoState :=
  C3_overfuel_request_no_change 2 0 101 [] demoState demoWorker demoPlayer
    (by decide) (by decide) (by decide) (by decide) (by decide)

/-- Claim C6: when a hit leaves the worker alien's health positive but at
most 4, the alien relocates to a module drawn from all station modules
except its current one (the player's current and locked modules are not
excluded from the candidates), recording its old module as previous, and
the combat loop ends at once — the result does not depend on any further
prompt input.  The candidate list is exactly the module keys other than
the alien's current module. -/
theorem C6_worker_flees_on_low_health (wid : EntityId) (pick : Nat) (i : Int)
    (rest : List Int) (s : GameState) (w p : Entity)
    (hw : getEntity s wid = some w) (hp : getPlayer s = some p)
    (hwid : wid ≠ s.playerId)
    (hwa : w.alive = true) (hpa : p.alive = true)
    (hf : i ≤ p.flamethrower_fuel)
    (hpos : 0 < w.health - i) (hlow : w.health - i ≤ 4) :
    (∀ mid, mid ∈ (modKeys s).filter (fun m2 => decide (m2 ≠ w.module)) ↔
      (mid ∈ modKeys s ∧ mid ≠ w.module)) ∧
    workerCombat wid pick (i :: rest) s =
      setEntityModule
        (hurtEntity (updEntity s s.playerId
          (fun e => { e with flamethrower_fuel := e.flamethrower_fuel - i })) wid i)
        wid
        (pickFrom ((modKeys s).filter (fun m2 => decide (m2 ≠ w.module)))
          w.module pick) ∧
    ((modKeys s).filter (fun m2 => decide (m2 ≠ w.module)) ≠ [] →
      ∃ w3, getEntity (workerCombat wid pick (i :: rest) s) wid = some w3 ∧
        w3.module =
          pickFrom ((modKeys s).filter (fun m2 => decide (m2 ≠ w.module)))
            w.module pick ∧
        w3.module ≠ w.module ∧
        w3.previous_module = some w.module) := by
  have hg : (w.alive && p.alive) = true := by rw [hwa, hpa]; rfl
  have hs1w : getEntity (updEntity s s.playerId
      (fun e => { e with flamethrower_fuel := e.flamethrower_fuel - i })) wid = some w := by
    rw [getEntity_updEntity_ne _ _ _ _ hwid]
    exact hw
  have hne0 : ¬ (w.health - i = 0) := by omega
  have hs2w : getEntity (hurtEntity (updEntity s s.playerId
      (fun e => { e with flamethrower_fuel := e.flamethrower_fuel - i })) wid i) wid =
      some { w with health := w.health - i } := by
    rw [hurtEntity, getEntity_updEntity_self, hs1w]
    simp [Hurtable.hurt, if_pos hpos, hne0]
    omega
  have heq : workerCombat wid pick (i :: rest) s =
      setEntityModule
        (hurtEntity (updEntity s s.playerId
          (fun e => { e with flamethrower_fuel := e.flamethrower_fuel - i })) wid i)
        wid
        (pickFrom ((modKeys s).filter (fun m2 => decide (m2 ≠ w.module)))
          w.module pick) := by
    simp only [workerCombat, hw, hp, hg, if_pos, hf, if_true, hs2w]
    simp [hwa, hlow, hne0, hpos]
    rfl
  refine ⟨?_, heq, ?_⟩
  · intro mid
    simp [List.mem_filter]
  · intro hne
    rw [heq]
    refine ⟨_, getEntity_setEntityModule_self _ _ _ _ hs2w, rfl, ?_, rfl⟩
    show pickFrom ((modKeys s).filter (fun m2 => decide (m2 ≠ w.module)))
      w.module pick ≠ w.module
    have hmem := pickFrom_mem _ w.module pick hne
    have := List.of_mem_filter hmem
    simpa using this

/-- Witness for C6: with the demo worker at 10 health, spending 6 fuel
drops it to 4 and it flees the engine room. -/
theorem C6_worker_flees_on_low_health_witness :
    workerCombat 2 0 [6] demoState =
      setEntityModule
        (hurtEntity (updEntity demoState demoState.playerId
          (fun e => { e with flamethrower_fuel := e.flamethrower_fuel - 6 })) 2 6)
        2
        (pickFrom ((modKeys demoState).filter
          (fun m2 => decide (m2 ≠ demoWorker.module))) demoWorker.module 0) :=
  (C6_worker_flees_on_low_health 2 0 6 [] demoState demoWorker demoPlayer
    (by decide) (by decide) (by decide) (by decide) (by decide) (by decide)
    (by decide) (by decide)).2.1

/-- Counterexample to claim C10 as stated: a worker alien re-engaged
while wounded (health 2 — reachable, since a fleeing alien survives with
health 1 to 4) and healed by the negative input -1 reaches health 3,
which is still at most 4, so the step takes the flee branch instead of
the counterattack: the creature relocates (here to the bridge) and the
player's health is untouched, with only the fuel refunded. -/
theorem C10_negative_input_counterexample :
    getEntity (workerCombat 2 0 [-1] demoStateWounded) 2 =
      some { demoWorkerWounded with
              module := "bridge",
              previous_module := some "engine",
              health := 3 } ∧
    getPlayer (workerCombat 2 0 [-1] demoStateWounded) =
      some { demoPlayer with flamethrower_fuel := 101 } := by
  decide

/-- Claim C10 (amended): the combat prompt accepts negative integers.
For a negative input `i`, the check `i ≤ fuel` passes whenever fuel is
non-negative, and the step increases the player's fuel by `|i|` and the
creature's health by `|i|` (damage with a negative amount adds health).
The loop then proceeds to the creature's counterattack when the healed
health still exceeds 4; when instead a re-engaged wounded creature is
healed to at most 4, the flee branch fires and the loop ends. -/
theorem C10_negative_input_heals (wid : EntityId) (pick : Nat) (i : Int)
    (rest : List Int) (s : GameState) (w p : Entity)
    (hw : getEntity s wid = some w) (hp : getPlayer s = some p)
    (hwid : wid ≠ s.playerId)
    (hwa : w.alive = true) (hpa : p.alive = true)
    (hneg : i < 0) (hfuel : 0 ≤ p.flamethrower_fuel) (hhp : 0 ≤ w.health) :
    i ≤ p.flamethrower_fuel ∧
    (∃ w3, getEntity
        (hurtEntity (updEntity s s.playerId
          (fun e => { e with flamethrower_fuel := e.flamethrower_fuel - i })) wid i)
        wid = some w3 ∧
      w3.health = w.health - i ∧ w.health < w3.health) ∧
    (∃ p3, getPlayer
        (hurtEntity (updEntity s s.playerId
          (fun e => { e with flamethrower_fuel := e.flamethrower_fuel - i })) wid i) =
        some p3 ∧
      p3.flamethrower_fuel = p.flamethrower_fuel - i ∧
      p.flamethrower_fuel < p3.flamethrower_fuel) ∧
    (4 < w.health - i →
      workerCombat wid pick (i :: rest) s =
        workerCombat wid pick rest
          (hurtEntity
            (hurtEntity (updEntity s s.playerId
              (fun e => { e with flamethrower_fuel := e.flamethrower_fuel - i })) wid i)
            s.playerId w.attack)) ∧
    (w.health - i ≤ 4 →
      workerCombat wid pick (i :: rest) s =
        setEntityModule
          (hurtEntity (updEntity s s.playerId
            (fun e => { e with flamethrower_fuel := e.flamethrower_fuel - i })) wid i)
          wid
          (pickFrom ((modKeys s).filter (fun m2 => decide (m2 ≠ w.module)))
            w.module pick)) := by
  have hf : i ≤ p.flamethrower_fuel := le_trans (le_of_lt hneg) hfuel
  have hg : (w.alive && p.alive) = true := by rw [hwa, hpa]; rfl
  have hs1w : getEntity (updEntity s s.playerId
      (fun e => { e with flamethrower_fuel := e.flamethrower_fuel - i })) wid = some w := by
    rw [getEntity_updEntity_ne _ _ _ _ hwid]
    exact hw
  have hpos : 0 < w.health - i := by omega
  have hne0 : ¬ (w.health - i = 0) := by omega
  have hs2w : getEntity (hurtEntity (updEntity s s.playerId
      (fun e => { e with flamethrower_fuel := e.flamethrower_fuel - i })) wid i) wid =
      some { w with health := w.health - i } := by
    rw [hurtEntity, getEntity_updEntity_self, hs1w]
    simp [Hurtable.hurt, if_pos hpos, hne0]
    omega
  refine ⟨hf, ?_, ?_, ?_, ?_⟩
  · refine ⟨_, hs2w, rfl, ?_⟩
    show w.health < w.health - i
    omega
  · have hs2pl : getEntity (hurtEntity (updEntity s s.playerId
        (fun e => { e with flamethrower_fuel := e.flamethrower_fuel - i })) wid i)
        s.playerId = some { p with flamethrower_fuel := p.flamethrower_fuel - i } := by
      rw [hurtEntity, getEntity_updEntity_ne _ _ _ _ (Ne.symm hwid),
        getEntity_updEntity_self]
      rw [show getEntity s s.playerId = some p from hp]
      rfl
    refine ⟨{ p with flamethrower_fuel := p.flamethrower_fuel - i }, hs2pl, rfl, ?_⟩
    show p.flamethrower_fuel < p.flamethrower_fuel - i
    omega
  · intro hhigh
    have hnlow : ¬ ((w.health - i) ≤ 4) := not_le.mpr hhigh
    simp only [workerCombat, hw, hp, hg, if_pos, hf, if_true, hs2w]
    simp [hwa, hnlow, hne0, hpos]
  · intro hlow
    simp only [workerCombat, hw, hp, hg, if_pos, hf, if_true, hs2w]
    simp [hwa, hlow, hne0, hpos]
    rfl

/-- Witness for C10: entering -5 against the fresh demo worker (health
10) heals it to 15, which exceeds 4, so the counterattack equation
applies; the heal conjunct is extracted here. -/
theorem C10_negative_input_heals_witness :
    ∃ w3, getEntity
        (hurtEntity (updEntity demoState demoState.playerId
          (fun e => { e with flamethrower_fuel := e.flamethrower_fuel - (-5) }))
          2 (-5)) 2 = some w3 ∧
      w3.health = demoWorker.health - (-5) ∧ demoWorker.health < w3.health :=
  (C10_negative_input_heals 2 0 (-5) [] demoState demoWorker demoPlayer
    (by decide) (by decide) (by decide) (by decide) (by decide) (by decide)
    (by decide) (by decide)).2.1

/-- Claim C9: over any sequence of lock commands (the only action that
touches the energy pool — all movement and combat reactions leave
`energy` unchanged, third conjunct) the lights-out narration is emitted at
most once, and a lock command emits it exactly when it moves a nonzero
energy to zero.  This holds from any start state, in particular from the
initial energy of 100. -/
theorem C9_lights_out_once (s : GameState) (ts : List ModuleId) (t : ModuleId) :
    lockTrace s ts ≤ 1 ∧
    (lockEmits s t = true ↔ (s.energy ≠ 0 ∧ (lock_module s t).1.energy = 0)) ∧
    (∀ orc dest, ((move_to orc s dest).1).energy = s.energy) := by
  refine ⟨lockTrace_le_one ts s, ⟨?_, ?_⟩, ?_⟩
  · intro h
    refine ⟨?_, lockEmits_post_zero s t h⟩
    have hle := lock_success_energy s t (of_decide_eq_true h).1
    rw [LOCK_MODULE_ENERGY] at hle
    omega
  · rintro ⟨hne, hz⟩
    by_cases hsucc : (lock_module s t).2 = LockResult.success
    · exact decide_eq_true ⟨hsucc, hz⟩
    · have := lock_unchanged_of_not_success s t hsucc
      rw [this] at hz
      exact absurd hz hne
  · intro orc dest
    rw [move_to, energy_runObs _ (energy_entityReact orc), energy_movePre]

theorem modKeys_setEntityModule (s : GameState) (eid : EntityId) (dest : ModuleId) :
    modKeys (setEntityModule s eid dest) = modKeys s := by
  cases hge : getEntity s eid with
  | none => rw [setEntityModule, hge]
  | some e =>
    rw [setEntityModule, hge]
    show modKeys (updModule _ _ _) = _
    rw [modKeys_updModule]
    show modKeys (updEntity _ _ _) = _
    rw [modKeys_updEntity, modKeys_updModule]

/-- Claim C5: on a player-entered notification the Telium attempts `n`
consecutive relocation steps (`n` is the `randint(1, 3)` draw); the
candidate set of a step is exactly the door-neighbours of its current
module minus the player's previous, current and locked modules; an empty
candidate set stops the flight; an executed step moves the Telium to the
drawn candidate, records the old module as previous, and sets the
recently-visited flag on the module it enters. -/
theorem C5_telium_flight (tid : EntityId) (n : Nat) (picks : List Nat) (s : GameState)
    (t p : Entity) (m : Module)
    (ht : getEntity s tid = some t) (hp : getPlayer s = some p)
    (hm : getModule s t.module = some m)
    (hn1 : 1 ≤ n) (hn3 : n ≤ 3) :
    (∀ mid, mid ∈ availableEscapes s tid ↔
      (mid ∈ m.doors.map Prod.snd ∧ some mid ≠ p.previous_module ∧
        mid ≠ p.module ∧ some mid ≠ p.locked_module)) ∧
    (availableEscapes s tid = [] → teliumFlee tid n picks s = s) ∧
    (∀ n2, n = n2 + 1 → ∀ esc0 escs, availableEscapes s tid = esc0 :: escs →
      teliumFlee tid n picks s =
        teliumFlee tid n2 picks.tail
          (teliumMoveTo s tid (pickFrom (esc0 :: escs) esc0 (picks.headD 0))) ∧
      pickFrom (esc0 :: escs) esc0 (picks.headD 0) ∈ availableEscapes s tid ∧
      (∃ t2, getEntity (teliumMoveTo s tid
          (pickFrom (esc0 :: escs) esc0 (picks.headD 0))) tid = some t2 ∧
        t2.module = pickFrom (esc0 :: escs) esc0 (picks.headD 0) ∧
        t2.previous_module = some t.module) ∧
      (pickFrom (esc0 :: escs) esc0 (picks.headD 0) ∈ modKeys s →
        ∃ m2, getModule (teliumMoveTo s tid
            (pickFrom (esc0 :: escs) esc0 (picks.headD 0)))
            (pickFrom (esc0 :: escs) esc0 (picks.headD 0)) = some m2 ∧
          m2.telium_visited_recently = true)) := by
  refine ⟨?_, ?_, ?_⟩
  · intro mid
    simp only [availableEscapes, ht, hp, hm]
    simp [List.mem_filter, and_assoc]
  · intro hempty
    obtain ⟨n2, rfl⟩ : ∃ n2, n = n2 + 1 := ⟨n - 1, by omega⟩
    rw [teliumFlee, hempty]
  · intro n2 hn esc0 escs hesc
    subst hn
    have hdest := pickFrom_mem (esc0 :: escs) esc0 (picks.headD 0) (by simp)
    refine ⟨?_, ?_, ?_, ?_⟩
    · rw [teliumFlee, hesc]
    · rw [hesc]
      exact hdest
    · exact ⟨_, by
        rw [teliumMoveTo]
        show getEntity (updModule _ _ _) tid = _
        rw [getEntity_updModule]
        exact getEntity_setEntityModule_self s tid _ t ht, rfl, rfl⟩
    · intro hkey
      rw [teliumMoveTo]
      have hsome : ∃ m1, getModule (setEntityModule s tid
          (pickFrom (esc0 :: escs) esc0 (picks.headD 0)))
          (pickFrom (esc0 :: escs) esc0 (picks.headD 0)) = some m1 := by
        apply alookup_isSome_of_mem_fst
        show _ ∈ modKeys (setEntityModule s tid _)
        rw [modKeys_setEntityModule]
        exact hkey
      obtain ⟨m1, hm1⟩ := hsome
      refine ⟨{ m1 with telium_visited_recently := true }, ?_, rfl⟩
      show getModule (updModule _ _ _) _ = _
      rw [getModule_updModule_self, hm1]
      rfl

/-- Witness for C5: in the demo station the Telium's only escape from the
engine room is the cargo bay (the bridge holds the player), and fleeing
there sets the cargo bay's recently-visited flag. -/
theorem C5_telium_flight_witness :
    ∃ m2, getModule (teliumMoveTo demoState 1
        (pickFrom ["cargo"] "cargo" (([0] : List Nat).headD 0)))
        (pickFrom ["cargo"] "cargo" (([0] : List Nat).headD 0)) = some m2 ∧
      m2.telium_visited_recently = true :=
  ((C5_telium_flight 1 1 [0] demoState demoTelium demoPlayer engineModule
    (by decide) (by decide) (by decide) (by decide) (by decide)).2.2 0 rfl
    "cargo" [] (by decide)).2.2.2 (by decide)

theorem applyList_nil (react : EntityId → GameState → GameState) (s : GameState) :
    applyList react [] s = s := rfl

theorem applyList_cons (react : EntityId → GameState → GameState)
    (e : EntityId) (l : List EntityId) (s : GameState) :
    applyList react (e :: l) s = applyList react l (react e s) := rfl

/-- The observer loop reacts exactly a prefix of its snapshot: there is a
cut `k` such that the notified entities are the first `k` of the list in
order, the final state is the sequential application of those reactions,
the player is alive after every notified reaction but possibly the last,
and a proper cut is explained by the player being dead. -/
theorem runObs_characterization (react : EntityId → GameState → GameState)
    (l : List EntityId) (s : GameState) :
    ∃ k, k ≤ l.length ∧
      (runObs react l s).2 = l.take k ∧
      (runObs react l s).1 = applyList react (l.take k) s ∧
      (∀ j, j + 1 < k → playerAlive (applyList react (l.take (j + 1)) s) = true) ∧
      (k < l.length → playerAlive (applyList react (l.take k) s) = false) := by
  induction l generalizing s with
  | nil =>
    refine ⟨0, le_refl 0, rfl, rfl, ?_, ?_⟩
    · intro j hj
      omega
    · intro hk
      exact absurd hk (by simp)
  | cons e rest ih =>
    by_cases ha : playerAlive (react e s) = true
    · obtain ⟨k, hk, h2, h1, hmid, hstop⟩ := ih (react e s)
      refine ⟨k + 1, by simpa using Nat.succ_le_succ hk, ?_, ?_, ?_, ?_⟩
      · rw [runObs]
        simp only [ha, if_pos, List.take_succ_cons]
        rw [h2]
      · rw [runObs]
        simp only [ha, if_pos, List.take_succ_cons, applyList_cons]
        exact h1
      · intro j hj
        cases j with
        | zero =>
          simpa [applyList_cons, applyList_nil] using ha
        | succ j0 =>
          rw [List.take_succ_cons, applyList_cons]
          exact hmid j0 (by omega)
      · intro hlt
        rw [List.take_succ_cons, applyList_cons]
        exact hstop (by simpa using Nat.lt_of_succ_lt_succ hlt)
    · refine ⟨1, by simp, ?_, ?_, ?_, ?_⟩
      · rw [runObs]
        simp only [ha, if_neg, Bool.not_eq_true]
        simp
      · rw [runObs]
        simp only [ha, if_neg, Bool.not_eq_true]
        simp [applyList_cons, applyList_nil]
      · intro j hj
        omega
      · intro hlt
        rw [List.take_succ_cons, List.take_zero, applyList_cons, applyList_nil]
        simpa using ha

/-- Claim C7: `Player.move_to` first relocates the player to the
destination and marks it visited, then notifies exactly a prefix (in list
order) of the non-player entities present in the destination's entity
list at notification start, invoking each reaction in sequence; the whole
list is notified unless the player's alive flag goes false, and the
iteration stops at the first reaction after which the player is dead. -/
theorem C7_move_to_notifies_in_order (orc : EntityId → ROracle) (s : GameState)
    (dest : ModuleId) (p : Entity)
    (hdest : dest ∈ modKeys s) (hp : getPlayer s = some p) :
    (∃ p1, getPlayer (movePre s dest) = some p1 ∧ p1.module = dest) ∧
    (∃ m2, getModule (movePre s dest) dest = some m2 ∧
      m2.visited_by_player = true ∧
      moveSnapshot s dest =
        m2.entities.filter (fun eid => nonPlayerEnt (movePre s dest) eid)) ∧
    (∃ k, k ≤ (moveSnapshot s dest).length ∧
      (move_to orc s dest).2 = (moveSnapshot s dest).take k ∧
      (move_to orc s dest).1 =
        applyList (entityReact orc) ((moveSnapshot s dest).take k) (movePre s dest) ∧
      (∀ j, j + 1 < k →
        playerAlive (applyList (entityReact orc)
          ((moveSnapshot s dest).take (j + 1)) (movePre s dest)) = true) ∧
      (k < (moveSnapshot s dest).length →
        playerAlive (applyList (entityReact orc)
          ((moveSnapshot s dest).take k) (movePre s dest)) = false)) := by
  refine ⟨?_, ?_, runObs_characterization _ _ _⟩
  · refine ⟨{ p with previous_module := some p.module, module := dest }, ?_, rfl⟩
    show getPlayer (updModule _ _ _) = _
    rw [getPlayer_updModule]
    simp only [getPlayer, playerId_setEntityModule]
    exact getEntity_setEntityModule_self s s.playerId dest p hp
  · have hsome : ∃ m1, getModule (setEntityModule s s.playerId dest) dest = some m1 := by
      apply alookup_isSome_of_mem_fst
      show _ ∈ modKeys (setEntityModule s s.playerId dest)
      rw [modKeys_setEntityModule]
      exact hdest
    obtain ⟨m1, hm1⟩ := hsome
    have hmod : getModule (movePre s dest) dest =
        some { m1 with visited_by_player := true } := by
      rw [movePre]
      show getModule (updModule _ _ _) _ = _
      rw [getModule_updModule_self, hm1]
      rfl
    refine ⟨{ m1 with visited_by_player := true }, hmod, rfl, ?_⟩
    rw [moveSnapshot, hmod]

/-- Witness for C7 at the demo station: moving the player to the engine
room (where the Telium and the worker alien wait). -/
theorem C7_move_to_notifies_in_order_witness :
    ∃ p1, getPlayer (movePre demoState "engine") = some p1 ∧ p1.module = "engine" :=
  (C7_move_to_notifies_in_order demoOracle demoState "engine" demoPlayer
    (by decide) (by decide)).1

theorem modules_updModule (s : GameState) (mid : ModuleId) (f : Module → Module) :
    (updModule s mid f).modules = aupdate s.modules mid f := rfl

theorem modules_updEntity (s : GameState) (eid : EntityId) (f : Entity → Entity) :
    (updEntity s eid f).modules = s.modules := rfl

theorem entities_updModule (s : GameState) (mid : ModuleId) (f : Module → Module) :
    (updModule s mid f).entities = s.entities := rfl

theorem entities_updEntity (s : GameState) (eid : EntityId) (f : Entity → Entity) :
    (updEntity s eid f).entities = aupdate s.entities eid f := rfl

theorem WF_updEntity (s : GameState) (eid : EntityId) (f : Entity → Entity)
    (hmod : ∀ e, (f e).module = e.module) (hkind : ∀ e, (f e).kind = e.kind)
    (hwf : WF s) : WF (updEntity s eid f) := by
  obtain ⟨h1, h2, h3, h4, h5, h6⟩ := hwf
  refine ⟨h1, ?_, ?_, ?_, h5, ?_⟩
  · show ((aupdate s.entities eid f).map Prod.fst).Nodup
    rw [mapfst_aupdate]
    exact h2
  · intro p hp q hq
    obtain ⟨v0, hv0, hpval⟩ := mem_aupdate hp
    have hm2 : (p.2).module = v0.module := by
      rw [hpval]
      split
      · exact hmod v0
      · rfl
    rw [hm2]
    exact h3 (p.1, v0) hv0 q hq
  · intro p hp
    obtain ⟨v0, hv0, hpval⟩ := mem_aupdate hp
    have hm2 : (p.2).module = v0.module := by
      rw [hpval]
      split
      · exact hmod v0
      · rfl
    rw [hm2]
    exact h4 (p.1, v0) hv0
  · intro p hp
    obtain ⟨v0, hv0, hpval⟩ := mem_aupdate hp
    have hm2 : (p.2).kind = v0.kind := by
      rw [hpval]
      split
      · exact hkind v0
      · rfl
    rw [hm2]
    exact h6 (p.1, v0) hv0

theorem WF_updModule (s : GameState) (mid : ModuleId) (f : Module → Module)
    (hent : ∀ m, (f m).entities = m.entities) (hdoors : ∀ m, (f m).doors = m.doors)
    (hwf : WF s) : WF (updModule s mid f) := by
  obtain ⟨h1, h2, h3, h4, h5, h6⟩ := hwf
  refine ⟨?_, h2, ?_, ?_, ?_, h6⟩
  · show ((aupdate s.modules mid f).map Prod.fst).Nodup
    rw [mapfst_aupdate]
    exact h1
  · intro p hp q hq
    obtain ⟨m0, hm0, hqval⟩ := mem_aupdate hq
    have hm2 : (q.2).entities = m0.entities := by
      rw [hqval]
      split
      · exact hent m0
      · rfl
    rw [hm2]
    exact h3 p hp (q.1, m0) hm0
  · intro p hp
    show (p.2).module ∈ (aupdate s.modules mid f).map Prod.fst
    rw [mapfst_aupdate]
    exact h4 p hp
  · intro q hq d hd
    obtain ⟨m0, hm0, hqval⟩ := mem_aupdate hq
    have hm2 : (q.2).doors = m0.doors := by
      rw [hqval]
      split
      · exact hdoors m0
      · rfl
    rw [hm2] at hd
    show d.2 ∈ (aupdate s.modules mid f).map Prod.fst
    rw [mapfst_aupdate]
    exact h5 (q.1, m0) hm0 d hd

theorem WF_setEntityModule (s : GameState) (eid : EntityId) (dest : ModuleId)
    (hdest : dest ∈ modKeys s) (hwf : WF s) : WF (setEntityModule s eid dest) := by
  cases hge : getEntity s eid with
  | none => rw [setEntityModule, hge]; exact hwf
  | some e =>
    obtain ⟨h1, h2, h3, h4, h5, h6⟩ := hwf
    have hee : (eid, e) ∈ s.entities := alookup_mem hge
    rw [setEntityModule, hge]
    refine ⟨?_, ?_, ?_, ?_, ?_, ?_⟩
    · simp only [modules_updModule, modules_updEntity, mapfst_aupdate]
      exact h1
    · simp only [entities_updModule, entities_updEntity, mapfst_aupdate]
      exact h2
    · intro p hp q hq
      simp only [entities_updModule, entities_updEntity] at hp
      simp only [modules_updModule, modules_updEntity] at hq
      obtain ⟨v0, hv0, hpval⟩ := mem_aupdate hp
      obtain ⟨m1, hm1, hq1⟩ := mem_aupdate hq
      obtain ⟨m0, hm0, hm1val⟩ := mem_aupdate hm1
      dsimp only at hm1val hm0
      have hbase := h3 (p.1, v0) hv0 (q.1, m0) hm0
      dsimp only at hbase
      have hqent : (q.2).entities =
          (if q.1 = dest
            then (if q.1 = e.module then m0.entities.erase eid else m0.entities) ++ [eid]
            else (if q.1 = e.module then m0.entities.erase eid else m0.entities)) := by
        rw [hq1, hm1val]
        split <;> split <;> rfl
      by_cases hpe : p.1 = eid
      · have hv0e : v0 = e := by
          have hl := alookup_of_mem_nodup h2 hv0
          rw [hpe] at hl
          exact Option.some.inj (hl.symm.trans hge)
        subst hv0e
        have hpm : (p.2).module = dest := by
          rw [hpval, if_pos hpe]
        rw [hpm, hqent, hpe]
        rw [hpe] at hbase
        by_cases hqd : q.1 = dest
        · by_cases hqm : q.1 = v0.module
          · rw [if_pos hqd, if_pos hqm, List.count_append, List.count_erase_self,
              hbase, if_pos hqm.symm, if_pos hqd.symm]
            simp [List.count_singleton']
          · rw [if_pos hqd, if_neg hqm, List.count_append, hbase,
              if_neg (fun hh => hqm hh.symm), if_pos hqd.symm]
            simp [List.count_singleton']
        · by_cases hqm : q.1 = v0.module
          · rw [if_neg hqd, if_pos hqm, List.count_erase_self, hbase,
              if_pos hqm.symm, if_neg (fun hh => hqd hh.symm)]
          · rw [if_neg hqd, if_neg hqm, hbase, if_neg (fun hh => hqm hh.symm),
              if_neg (fun hh => hqd hh.symm)]
      · have hpm : (p.2) = v0 := by
          rw [hpval, if_neg hpe]
        have hmarknot : List.count p.1 [eid] = 0 := by
          simp [List.count_singleton', hpe]
        rw [hpm, hqent]
        by_cases hqd : q.1 = dest
        · by_cases hqm : q.1 = e.module
          · rw [if_pos hqd, if_pos hqm, List.count_append,
              List.count_erase_of_ne hpe, hmarknot, hbase]
            simp
          · rw [if_pos hqd, if_neg hqm, List.count_append, hmarknot, hbase]
            simp
        · by_cases hqm : q.1 = e.module
          · rw [if_neg hqd, if_pos hqm, List.count_erase_of_ne hpe, hbase]
          · rw [if_neg hqd, if_neg hqm, hbase]
    · intro p hp
      simp only [entities_updModule, entities_updEntity] at hp
      obtain ⟨v0, hv0, hpval⟩ := mem_aupdate hp
      simp only [modules_updModule, modules_updEntity, mapfst_aupdate]
      by_cases hpe : p.1 = eid
      · rw [hpval, if_pos hpe]
        exact hdest
      · rw [hpval, if_neg hpe]
        exact h4 (p.1, v0) hv0
    · intro q hq d hd
      simp only [modules_updModule, modules_updEntity] at hq
      obtain ⟨m1, hm1, hq1⟩ := mem_aupdate hq
      obtain ⟨m0, hm0, hm1val⟩ := mem_aupdate hm1
      dsimp only at hm1val hm0
      have hqd : (q.2).doors = m0.doors := by
        rw [hq1, hm1val]
        split <;> split <;> rfl
      rw [hqd] at hd
      simp only [modules_updModule, modules_updEntity, mapfst_aupdate]
      exact h5 (q.1, m0) hm0 d hd
    · intro p hp
      simp only [entities_updModule, entities_updEntity] at hp
      obtain ⟨v0, hv0, hpval⟩ := mem_aupdate hp
      have hk : (p.2).kind = v0.kind := by
        rw [hpval]
        split
        · rfl
        · rfl
      rw [hk]
      exact h6 (p.1, v0) hv0

theorem playerPos_updModule (s : GameState) (mid : ModuleId) (f : Module → Module) :
    playerPos (updModule s mid f) = playerPos s := rfl

theorem playerPos_updEntity_ne (s : GameState) (eid : EntityId) (f : Entity → Entity)
    (h : eid ≠ s.playerId) : playerPos (updEntity s eid f) = playerPos s := by
  rw [playerPos, playerPos, getPlayer_updEntity_ne s eid f (Ne.symm h)]

theorem playerPos_updEntity_keep (s : GameState) (f : Entity → Entity)
    (hmod : ∀ e, (f e).module = e.module)
    (hprev : ∀ e, (f e).previous_module = e.previous_module) :
    playerPos (updEntity s s.playerId f) = playerPos s := by
  rw [playerPos, playerPos, getPlayer_updEntity_player]
  cases getPlayer s with
  | none => rfl
  | some p => simp [hmod, hprev]

theorem playerPos_hurtEntity (s : GameState) (eid : EntityId) (a : Int) :
    playerPos (hurtEntity s eid a) = playerPos s := by
  by_cases he : eid = s.playerId
  · subst he
    rw [hurtEntity]
    apply playerPos_updEntity_keep <;> intro e <;> rfl
  · rw [hurtEntity]
    exact playerPos_updEntity_ne s eid _ he

theorem playerPos_setEntityModule (s : GameState) (eid : EntityId) (dest : ModuleId)
    (h : eid ≠ s.playerId) :
    playerPos (setEntityModule s eid dest) = playerPos s := by
  cases hge : getEntity s eid with
  | none => rw [setEntityModule, hge]
  | some e =>
    rw [setEntityModule, hge]
    show playerPos (updModule _ _ _) = _
    rw [playerPos_updModule, playerPos_updEntity_ne, playerPos_updModule]
    exact h

theorem playerId_hurtEntity (s : GameState) (eid : EntityId) (a : Int) :
    (hurtEntity s eid a).playerId = s.playerId := rfl

theorem playerId_teliumMoveTo (s : GameState) (tid : EntityId) (dest : ModuleId) :
    (teliumMoveTo s tid dest).playerId = s.playerId := by
  rw [teliumMoveTo]
  show (updModule _ _ _).playerId = _
  rw [playerId_updModule, playerId_setEntityModule]

theorem playerPos_teliumMoveTo (s : GameState) (tid : EntityId) (dest : ModuleId)
    (h : tid ≠ s.playerId) :
    playerPos (teliumMoveTo s tid dest) = playerPos s := by
  rw [teliumMoveTo]
  show playerPos (updModule _ _ _) = _
  rw [playerPos_updModule, playerPos_setEntityModule s tid dest h]

theorem availableEscapes_subset (s : GameState) (tid : EntityId) (hwf : WF s) :
    ∀ mid ∈ availableEscapes s tid, mid ∈ modKeys s := by
  intro mid hmid
  cases ht : getEntity s tid with
  | none =>
    simp only [availableEscapes, ht] at hmid
    simp at hmid
  | some t =>
    cases hp : getPlayer s with
    | none =>
      simp only [availableEscapes, ht, hp] at hmid
      simp at hmid
    | some p =>
      cases hm : getModule s t.module with
      | none =>
        simp only [availableEscapes, ht, hp, hm] at hmid
        simp at hmid
      | some m =>
        simp only [availableEscapes, ht, hp, hm] at hmid
        have hmem := List.mem_of_mem_filter hmid
        rcases List.mem_map.mp hmem with ⟨d, hd, hde⟩
        obtain ⟨h1, h2, h3, h4, h5, h6⟩ := hwf
        have hmm : (t.module, m) ∈ s.modules := alookup_mem hm
        subst hde
        exact h5 (t.module, m) hmm d hd

theorem WF_teliumMoveTo (s : GameState) (tid : EntityId) (dest : ModuleId)
    (hdest : dest ∈ modKeys s) (hwf : WF s) : WF (teliumMoveTo s tid dest) := by
  rw [teliumMoveTo]
  apply WF_updModule
  · intro m
    rfl
  · intro m
    rfl
  · exact WF_setEntityModule s tid dest hdest hwf

theorem WFpos_teliumFlee (tid : EntityId) (n : Nat) (picks : List Nat) (s : GameState)
    (hwf : WF s) (hid : tid ≠ s.playerId) :
    WF (teliumFlee tid n picks s) ∧
    playerPos (teliumFlee tid n picks s) = playerPos s ∧
    (teliumFlee tid n picks s).playerId = s.playerId := by
  induction n generalizing picks s with
  | zero => exact ⟨hwf, rfl, rfl⟩
  | succ n ih =>
    rw [teliumFlee]
    cases hesc : availableEscapes s tid with
    | nil => exact ⟨hwf, rfl, rfl⟩
    | cons m ms =>
      have hdest : pickFrom (m :: ms) m (picks.headD 0) ∈ modKeys s := by
        apply availableEscapes_subset s tid hwf
        rw [hesc]
        exact pickFrom_mem _ _ _ (by simp)
      have hwf2 := WF_teliumMoveTo s tid (pickFrom (m :: ms) m (picks.headD 0)) hdest hwf
      have hpos2 := playerPos_teliumMoveTo s tid (pickFrom (m :: ms) m (picks.headD 0)) hid
      have hpid2 := playerId_teliumMoveTo s tid (pickFrom (m :: ms) m (picks.headD 0))
      have hid2 : tid ≠ (teliumMoveTo s tid (pickFrom (m :: ms) m (picks.headD 0))).playerId := by
        rw [hpid2]
        exact hid
      obtain ⟨a, b, c⟩ := ih picks.tail _ hwf2 hid2
      exact ⟨a, by rw [b, hpos2], by rw [c, hpid2]⟩

theorem WFpos_workerCombat (wid : EntityId) (pick : Nat) (inputs : List Int)
    (s : GameState) (hwf : WF s) (hid : wid ≠ s.playerId) :
    WF (workerCombat wid pick inputs s) ∧
    playerPos (workerCombat wid pick inputs s) = playerPos s ∧
    (workerCombat wid pick inputs s).playerId = s.playerId := by
  induction inputs generalizing s with
  | nil => exact ⟨hwf, rfl, rfl⟩
  | cons i rest ih =>
    cases hw : getEntity s wid with
    | none =>
      have heq : workerCombat wid pick (i :: rest) s = s := by
        rw [workerCombat, hw]
      rw [heq]
      exact ⟨hwf, rfl, rfl⟩
    | some w =>
      cases hp : getPlayer s with
      | none =>
        have heq : workerCombat wid pick (i :: rest) s = s := by
          rw [workerCombat, hw, hp]
        rw [heq]
        exact ⟨hwf, rfl, rfl⟩
      | some p =>
        by_cases hg : (w.alive && p.alive) = true
        · by_cases hf : i ≤ p.flamethrower_fuel
          · have hwf1 : WF (updEntity s s.playerId
                (fun e => { e with flamethrower_fuel := e.flamethrower_fuel - i })) := by
              apply WF_updEntity
              · intro e
                rfl
              · intro e
                rfl
              · exact hwf
            have hwf2 : WF (hurtEntity (updEntity s s.playerId
                (fun e => { e with flamethrower_fuel := e.flamethrower_fuel - i })) wid i) := by
              rw [hurtEntity]
              apply WF_updEntity _ _ _ _ _ hwf1 <;> intro e <;> rfl
            have hpos2 : playerPos (hurtEntity (updEntity s s.playerId
                (fun e => { e with flamethrower_fuel := e.flamethrower_fuel - i })) wid i) =
                playerPos s := by
              rw [playerPos_hurtEntity]
              apply playerPos_updEntity_keep <;> intro e <;> rfl
            have hid2 : wid ≠ (hurtEntity (updEntity s s.playerId
                (fun e => { e with flamethrower_fuel := e.flamethrower_fuel - i }))
                wid i).playerId := hid
            cases hw2 : getEntity (hurtEntity (updEntity s s.playerId
                (fun e => { e with flamethrower_fuel := e.flamethrower_fuel - i })) wid i)
                wid with
            | none =>
              have heq : workerCombat wid pick (i :: rest) s =
                  hurtEntity (updEntity s s.playerId
                    (fun e => { e with flamethrower_fuel := e.flamethrower_fuel - i }))
                    wid i := by
                simp only [workerCombat, hw, hp, hg, hf, if_pos, if_true, hw2]
              rw [heq]
              exact ⟨hwf2, hpos2, rfl⟩
            | some w2 =>
              by_cases hd : w2.alive = false
              · have heq : workerCombat wid pick (i :: rest) s =
                    workerCombat wid pick rest
                      (hurtEntity (updEntity s s.playerId
                        (fun e => { e with flamethrower_fuel := e.flamethrower_fuel - i }))
                        wid i) := by
                  simp only [workerCombat, hw, hp, hg, hf, if_pos, if_true, hw2, hd]
                  simp
                rw [heq]
                obtain ⟨a, b, c⟩ := ih _ hwf2 hid2
                exact ⟨a, by rw [b, hpos2], c⟩
              · by_cases hfl : w2.health ≤ 4
                · have heq : workerCombat wid pick (i :: rest) s =
                      setEntityModule
                        (hurtEntity (updEntity s s.playerId
                          (fun e => { e with flamethrower_fuel := e.flamethrower_fuel - i }))
                          wid i) wid
                        (pickFrom ((modKeys (hurtEntity (updEntity s s.playerId
                            (fun e => { e with flamethrower_fuel := e.flamethrower_fuel - i }))
                            wid i)).filter (fun mid => decide (mid ≠ w2.module)))
                          w2.module pick) := by
                    simp only [workerCombat, hw, hp, hg, hf, if_pos, if_true, hw2]
                    simp [hd, hfl]
                  have hdest2 : (pickFrom ((modKeys (hurtEntity (updEntity s s.playerId
                      (fun e => { e with flamethrower_fuel := e.flamethrower_fuel - i }))
                      wid i)).filter (fun mid => decide (mid ≠ w2.module)))
                      w2.module pick) ∈ modKeys (hurtEntity (updEntity s s.playerId
                      (fun e => { e with flamethrower_fuel := e.flamethrower_fuel - i }))
                      wid i) := by
                    by_cases hc : ((modKeys (hurtEntity (updEntity s s.playerId
                        (fun e => { e with flamethrower_fuel := e.flamethrower_fuel - i }))
                        wid i)).filter (fun mid => decide (mid ≠ w2.module))) = []
                    · rw [hc]
                      have hw2mem : w2.module ∈ modKeys (hurtEntity (updEntity s s.playerId
                          (fun e => { e with flamethrower_fuel := e.flamethrower_fuel - i }))
                          wid i) := by
                        obtain ⟨g1, g2, g3, g4, g5, g6⟩ := hwf2
                        exact g4 (wid, w2) (alookup_mem hw2)
                      have hpe : pickFrom ([] : List ModuleId) w2.module pick = w2.module := by
                        rw [pickFrom]
                        simp
                      rw [hpe]
                      exact hw2mem
                    · exact List.mem_of_mem_filter (pickFrom_mem _ _ _ hc)
                  rw [heq]
                  refine ⟨WF_setEntityModule _ wid _ hdest2 hwf2, ?_, ?_⟩
                  · rw [playerPos_setEntityModule _ wid _ hid2, hpos2]
                  · rw [playerId_setEntityModule]
                    rfl
                · have heq : workerCombat wid pick (i :: rest) s =
                      workerCombat wid pick rest
                        (hurtEntity (hurtEntity (updEntity s s.playerId
                          (fun e => { e with flamethrower_fuel := e.flamethrower_fuel - i }))
                          wid i) s.playerId w.attack) := by
                    simp only [workerCombat, hw, hp, hg, hf, if_pos, if_true, hw2]
                    simp [hd, hfl]
                  have hwf3 : WF (hurtEntity (hurtEntity (updEntity s s.playerId
                      (fun e => { e with flamethrower_fuel := e.flamethrower_fuel - i }))
                      wid i) s.playerId w.attack) := by
                    rw [hurtEntity]
                    apply WF_updEntity _ _ _ _ _ hwf2 <;> intro e <;> rfl
                  have hpos3 : playerPos (hurtEntity (hurtEntity (updEntity s s.playerId
                      (fun e => { e with flamethrower_fuel := e.flamethrower_fuel - i }))
                      wid i) s.playerId w.attack) = playerPos s := by
                    rw [playerPos_hurtEntity, hpos2]
                  obtain ⟨a, b, c⟩ := ih _ hwf3 hid
                  rw [heq]
                  exact ⟨a, by rw [b, hpos3], c⟩
          · have heq : workerCombat wid pick (i :: rest) s = workerCombat wid pick rest s := by
              simp only [workerCombat, hw, hp, hg, hf, if_pos, if_true, if_neg,
                not_false_iff]
            rw [heq]
            exact ih s hwf hid
        · have heq : workerCombat wid pick (i :: rest) s = s := by
            simp only [workerCombat, hw, hp]
            simp [hg]
          rw [heq]
          exact ⟨hwf, rfl, rfl⟩

theorem WFpos_entityReact (orc : EntityId → ROracle) (eid : EntityId) (s : GameState)
    (hwf : WF s) :
    WF (entityReact orc eid s) ∧ playerPos (entityReact orc eid s) = playerPos s ∧
    (entityReact orc eid s).playerId = s.playerId := by
  cases hge : getEntity s eid with
  | none =>
    have heq : entityReact orc eid s = s := by simp [entityReact, hge]
    rw [heq]
    exact ⟨hwf, rfl, rfl⟩
  | some e =>
    cases hk : e.kind with
    | player =>
      have heq : entityReact orc eid s = s := by simp [entityReact, hge, hk]
      rw [heq]
      exact ⟨hwf, rfl, rfl⟩
    | telium =>
      have hid : eid ≠ s.playerId := by
        obtain ⟨g1, g2, g3, g4, g5, g6⟩ := hwf
        intro hh
        have hpk := (g6 (eid, e) (alookup_mem hge)).mpr hh
        rw [hk] at hpk
        exact absurd hpk (by decide)
      have heq : entityReact orc eid s =
          teliumFlee eid (orc eid).teliumSteps (orc eid).teliumPicks s := by
        simp [entityReact, hge, hk]
      rw [heq]
      exact WFpos_teliumFlee eid _ _ s hwf hid
    | workerAlien =>
      have hid : eid ≠ s.playerId := by
        obtain ⟨g1, g2, g3, g4, g5, g6⟩ := hwf
        intro hh
        have hpk := (g6 (eid, e) (alookup_mem hge)).mpr hh
        rw [hk] at hpk
        exact absurd hpk (by decide)
      by_cases ha : e.alive = true
      · have heq : entityReact orc eid s =
            workerCombat eid (orc eid).fleePick (orc eid).combatInputs s := by
          simp [entityReact, hge, hk, ha]
        rw [heq]
        exact WFpos_workerCombat eid _ _ s hwf hid
      · have heq : entityReact orc eid s = s := by
          simp [entityReact, hge, hk, ha]
        rw [heq]
        exact ⟨hwf, rfl, rfl⟩

theorem WFpos_runObs (orc : EntityId → ROracle) (l : List EntityId) (s : GameState)
    (hwf : WF s) :
    WF ((runObs (entityReact orc) l s).1) ∧
    playerPos ((runObs (entityReact orc) l s).1) = playerPos s ∧
    ((runObs (entityReact orc) l s).1).playerId = s.playerId := by
  induction l generalizing s with
  | nil => exact ⟨hwf, rfl, rfl⟩
  | cons e rest ihl =>
    obtain ⟨a1, b1, c1⟩ := WFpos_entityReact orc e s hwf
    rw [runObs]
    by_cases ha : playerAlive (entityReact orc e s) = true
    · simp only [ha, if_pos, if_true]
      obtain ⟨a2, b2, c2⟩ := ihl _ a1
      exact ⟨a2, by rw [b2, b1], by rw [c2, c1]⟩
    · rw [if_neg ha]
      exact ⟨a1, b1, c1⟩

/-- Claim C2: player relocation is consistent through the whole of
`move_to` including creature reactions: afterwards the player's record
points at the destination, `previous_module` is the module occupied
immediately before, and the player occurs exactly once in the destination
module's entity list and in no other module's list.  Together with the
well-formedness preservation lemmas this shows each relocation
(remove-from-old, record-previous, update-pointer, add-to-new) keeps
every entity's module reference and the modules' entity lists in sync. -/
theorem C2_move_to_consistent (orc : EntityId → ROracle) (s : GameState)
    (dest : ModuleId) (p : Entity)
    (hwf : WF s) (hdest : dest ∈ modKeys s) (hp : getPlayer s = some p) :
    ∃ p2, getPlayer (move_to orc s dest).1 = some p2 ∧
      p2.module = dest ∧
      p2.previous_module = some p.module ∧
      ∀ q ∈ ((move_to orc s dest).1).modules,
        (q.2).entities.count s.playerId = if q.1 = dest then 1 else 0 := by
  have hwfpre : WF (movePre s dest) := by
    rw [movePre]
    apply WF_updModule
    · intro m
      rfl
    · intro m
      rfl
    · exact WF_setEntityModule s s.playerId dest hdest hwf
  have hppre : getPlayer (movePre s dest) =
      some { p with previous_module := some p.module, module := dest } := by
    rw [movePre]
    show getPlayer (updModule _ _ _) = _
    rw [getPlayer_updModule]
    simp only [getPlayer, playerId_setEntityModule]
    exact getEntity_setEntityModule_self s s.playerId dest p hp
  have hpidpre : (movePre s dest).playerId = s.playerId := by
    rw [movePre]
    show (updModule _ _ _).playerId = _
    rw [playerId_updModule, playerId_setEntityModule]
  obtain ⟨hwf2, hpos2, hpid2⟩ :=
    WFpos_runObs orc (moveSnapshot s dest) (movePre s dest) hwfpre
  have hmv : (move_to orc s dest).1 =
      (runObs (entityReact orc) (moveSnapshot s dest) (movePre s dest)).1 := rfl
  have hpos : playerPos ((move_to orc s dest).1) = some (dest, some p.module) := by
    rw [hmv, hpos2, playerPos, hppre]
    rfl
  have hpid : ((move_to orc s dest).1).playerId = s.playerId := by
    rw [hmv, hpid2, hpidpre]
  rw [playerPos] at hpos
  cases hgp : getPlayer ((move_to orc s dest).1) with
  | none =>
    rw [hgp] at hpos
    exact absurd hpos (by simp)
  | some p2 =>
    rw [hgp] at hpos
    have hinj := Option.some.inj hpos
    have hm1 : p2.module = dest := congrArg Prod.fst hinj
    have hm2 : p2.previous_module = some p.module := congrArg Prod.snd hinj
    refine ⟨p2, rfl, hm1, hm2, ?_⟩
    intro q hq
    obtain ⟨g1, g2, g3, g4, g5, g6⟩ := hwf2
    have hment : (s.playerId, p2) ∈ ((move_to orc s dest).1).entities := by
      apply alookup_mem
      show getEntity _ s.playerId = some p2
      rw [← hpid]
      exact hgp
    have hcnt := g3 (s.playerId, p2) hment q hq
    rw [show ((s.playerId, p2).2).module = dest from hm1] at hcnt
    rw [hcnt]
    by_cases hqd : q.1 = dest
    · simp [hqd]
    · have hdq : ¬ (dest = q.1) := fun hh => hqd hh.symm
      simp [hqd, hdq]

/-- Witness for C2: moving the demo player from the bridge to the engine
room. -/
theorem C2_move_to_consistent_witness :
    ∃ p2, getPlayer (move_to demoOracle demoState "engine").1 = some p2 ∧
      p2.module = "engine" ∧
      p2.previous_module = some demoPlayer.module ∧
      ∀ q ∈ ((move_to demoOracle demoState "engine").1).modules,
        (q.2).entities.count demoState.playerId = if q.1 = "engine" then 1 else 0 :=
  C2_move_to_consistent demoOracle demoState "engine" demoPlayer
    (by unfold WF
        decide) (by decide) (by decide)

/-- Witness for C9: with 20 energy, locking the cargo bay and then the
engine room emits the lights-out narration exactly once. -/
theorem C9_lights_out_once_witness :
    lockTrace demoState20 ["cargo", "engine"] ≤ 1 ∧
    (lockEmits demoState20 "cargo" = true ↔
      (demoState20.energy ≠ 0 ∧ (lock_module demoState20 "cargo").1.energy = 0)) :=
  ⟨(C9_lights_out_once demoState20 ["cargo", "engine"] "cargo").1,
    (C9_lights_out_once demoState20 ["cargo", "engine"] "cargo").2.1⟩

end TeliumGame
